import Mathlib

/-!
Verification of the agentic conversation engine (tool-call scheduler, turn
engine, conversation orchestrator, tool registry) against its design
specification.  Each definition below is a shallow embedding of the
corresponding JavaScript/TypeScript function from the repository sources;
JS runtime details that matter (truthiness of strings, `??` vs `||`,
`Array.isArray` dispatch) are modelled explicitly.
-/

namespace Engine

/-! ## Part data model (from the genai `Part` union as used by the engine) -/

/-- Inline binary data (`Blob`): mime type plus base64 payload. -/
structure Blob where
  mimeType : Option String
  data : String
deriving DecidableEq, Repr

/-- A file reference (`FileData`): mime type plus uri. -/
structure FileRef where
  mimeType : Option String
  fileUri : String
deriving DecidableEq, Repr

/-- A part appearing inside a `functionResponse.response.content` list.  Only
its `text` field is ever read by the engine (by `getResponseTextFromParts`). -/
structure ResponseContentPart where
  text : Option String
deriving DecidableEq, Repr

/-- The `response` record of a function response: the engine writes
`{output}` or `{error}` records and reads an optional `content` list. -/
structure FRPayload where
  output : Option String := none
  error : Option String := none
  content : Option (List ResponseContentPart) := none
deriving DecidableEq, Repr

/-- A `functionResponse` part body. -/
structure FunctionResponseObj where
  id : Option String := none
  name : Option String := none
  response : Option FRPayload := none
deriving DecidableEq, Repr

/-- One content `Part`.  `functionCall` and `thought` model only the presence
of those fields, which is all the engine inspects. -/
structure Part where
  text : Option String := none
  inlineData : Option Blob := none
  fileData : Option FileRef := none
  functionResponse : Option FunctionResponseObj := none
  functionCall : Bool := false
  thought : Bool := false
deriving DecidableEq, Repr

/-- A text-only part. -/
def mkTextPart (s : String) : Part :=
  { text := some s }

/-- `PartListUnion` from the genai SDK: a string, a single part, or a list of
parts.  `Array.isArray` dispatch in the source distinguishes the three. -/
inductive PartListUnion where
  | str : String → PartListUnion
  | single : Part → PartListUnion
  | list : List Part → PartListUnion
deriving DecidableEq, Repr

/-- JS `a || b` on optional strings: `undefined` and `""` are falsy. -/
def jsOrString (a : Option String) (b : String) : String :=
  match a with
  | some s => if s = "" then b else s
  | none => b

/-- Modelled from the spec: `getResponseTextFromParts` (its implementation
file `generateContentResponseUtilities.js` is not among the sources) —
concatenates the `text` fields of the parts, returning `none` when no part
has text, matching its use `getResponseTextFromParts(...) || ''`. -/
def getResponseTextFromParts (parts : List ResponseContentPart) : Option String :=
  let texts := parts.filterMap (fun p => p.text)
  if texts.isEmpty then none else some (String.join texts)

/-- `createFunctionResponsePart` from `coreToolScheduler.js`: wraps an output
string as `{functionResponse: {id, name, response: {output}}}`. -/
def createFunctionResponsePart (callId toolName output : String) : Part :=
  { functionResponse := some
      { id := some callId
        name := some toolName
        response := some { output := some output } } }

/-- `convertToFunctionResponse` from `coreToolScheduler.js`: normalizes a
tool's raw `llmContent` into response parts for the model. -/
def convertToFunctionResponse (toolName callId : String)
    (llmContent : PartListUnion) : PartListUnion :=
  let contentToProcess : PartListUnion :=
    match llmContent with
    | .list [p] => .single p
    | x => x
  match contentToProcess with
  | .str s => .single (createFunctionResponsePart callId toolName s)
  | .list ps =>
      .list (createFunctionResponsePart callId toolName "Tool execution succeeded." :: ps)
  | .single p =>
    match p.functionResponse with
    | some fr =>
      match fr.response with
      | some payload =>
        match payload.content with
        | some parts =>
            .single (createFunctionResponsePart callId toolName
              (jsOrString (getResponseTextFromParts parts) ""))
        | none => .single p
      | none => .single p
    | none =>
      if p.inlineData.isSome || p.fileData.isSome then
        let mimeType :=
          jsOrString (p.inlineData.bind (fun b => b.mimeType))
            (jsOrString (p.fileData.bind (fun f => f.mimeType)) "unknown")
        .list [createFunctionResponsePart callId toolName
                 ("Binary content of type " ++ mimeType ++ " was processed."), p]
      else
        match p.text with
        | some t => .single (createFunctionResponsePart callId toolName t)
        | none => .single (createFunctionResponsePart callId toolName "Tool execution succeeded.")

/-- Reads back the `output` field of a converted single function response. -/
def responseOutput : PartListUnion → Option String
  | .single p => (p.functionResponse.bind (fun fr => fr.response)).bind (fun r => r.output)
  | _ => none

/-- Claim C7: the response-part conversion wraps every plain string result as
the tool's textual output, collapses every list containing exactly one
textual part to that part's text, and hence converting a single-text-part
tool result with content `s` and reading back the `output` field of the
resulting function response yields `s`. -/
theorem convertToFunctionResponse_single_text_roundtrip
    (toolName callId s : String) :
    convertToFunctionResponse toolName callId (.str s)
      = .single (createFunctionResponsePart callId toolName s)
    ∧ convertToFunctionResponse toolName callId (.list [mkTextPart s])
      = .single (createFunctionResponsePart callId toolName s)
    ∧ responseOutput (convertToFunctionResponse toolName callId (.list [mkTextPart s]))
      = some s
    ∧ responseOutput (convertToFunctionResponse toolName callId (.str s))
      = some s := by
  refine ⟨rfl, rfl, rfl, rfl⟩

/-! ## Tool Call Scheduler (`CoreToolScheduler` in `coreToolScheduler.js`)

The scheduler is stateful JS; it is embedded as explicit state passing over
`SchedulerState`.  `Date.now()` is passed in as an explicit `now : Nat`.
The observation callbacks `onToolCallsUpdate` (a pure copy of the list) is
not tracked; `onAllToolCallsComplete` and `logToolCall` are tracked as the
`completedBatches` and `auditLog` fields of the state. -/

/-- Tool call lifecycle status. -/
inductive Status where
  | validating
  | scheduled
  | awaitingApproval
  | executing
  | success
  | error
  | cancelled
deriving DecidableEq, Repr

/-- `ToolConfirmationOutcome` from `tools.js`. -/
inductive ToolConfirmationOutcome where
  | proceedOnce
  | proceedAlways
  | proceedAlwaysServer
  | proceedAlwaysTool
  | modifyWithEditor
  | cancel
deriving DecidableEq, Repr

/-- `ApprovalMode` from `config.js`. -/
inductive ApprovalMode where
  | defaultMode
  | autoEdit
  | yolo
deriving DecidableEq, Repr

/-- `ToolCallRequestInfo` from `turn.ts`; `args` is an opaque map, modelled
as an opaque token. -/
structure ToolCallRequestInfo where
  callId : String
  name : String
  args : String
  isClientInitiated : Bool
deriving DecidableEq, Repr

/-- `ToolCallResponseInfo` from `turn.ts`; the `error : Error | undefined`
field is modelled by its message. -/
structure ToolCallResponseInfo where
  callId : String
  responseParts : PartListUnion
  resultDisplay : Option String
  errorMessage : Option String
deriving DecidableEq, Repr

/-- One tracked tool call.  The source uses per-status record shapes; here a
single record carries every field, with `none` for the fields the source's
record for that status omits (the per-status transition constructors below
rebuild the record exactly as the source does).  The tool instance is
modelled by its name; confirmation details by an opaque token. -/
structure SchedToolCall where
  request : ToolCallRequestInfo
  status : Status
  tool : Option String
  response : Option ToolCallResponseInfo
  confirmationDetails : Option String
  startTime : Option Nat
  durationMs : Option Nat
  outcome : Option ToolConfirmationOutcome
  liveOutput : Option String
deriving DecidableEq, Repr

/-- `status === 'success' || status === 'error' || status === 'cancelled'`. -/
def isTerminal : Status → Bool
  | .success | .error | .cancelled => true
  | _ => false

/-- `status === 'executing' || status === 'awaiting_approval'` (the
`isRunning` test). -/
def isActiveStatus : Status → Bool
  | .executing | .awaitingApproval => true
  | _ => false

/-- Guard of `attemptExecutionOfScheduledCalls`: terminal or `scheduled`. -/
def isFinalOrScheduled : Status → Bool
  | .scheduled | .cancelled | .success | .error => true
  | _ => false

/-- The target status plus the `auxiliaryData` passed to
`setStatusInternal`, coupled per status as the source uses them. -/
inductive StatusUpdate where
  | toSuccess (resp : ToolCallResponseInfo)
  | toError (resp : ToolCallResponseInfo)
  | toAwaitingApproval (details : String)
  | toScheduled
  | toCancelled (reason : String)
  | toValidating
  | toExecuting
deriving DecidableEq, Repr

/-- `createErrorResponse` from `coreToolScheduler.js`. -/
def createErrorResponse (request : ToolCallRequestInfo) (message : String) :
    ToolCallResponseInfo :=
  { callId := request.callId
    responseParts := .single
      { functionResponse := some
          { id := some request.callId
            name := some request.name
            response := some { error := some message } } }
    resultDisplay := some message
    errorMessage := some message }

/-- The synthesized response of the `'cancelled'` branch of
`setStatusInternal`. -/
def cancelledResponse (request : ToolCallRequestInfo) (reason : String) :
    ToolCallResponseInfo :=
  { callId := request.callId
    responseParts := .single
      { functionResponse := some
          { id := some request.callId
            name := some request.name
            response := some
              { error := some ("[Operation Cancelled] Reason: " ++ reason) } } }
    resultDisplay := none
    errorMessage := none }

/-- The per-call body of the `map` inside `setStatusInternal`
(`coreToolScheduler.js` lines 85–186): calls with a different id and calls
already in a terminal state are returned unchanged; otherwise a fresh
record for the new status is built exactly as in the source. -/
def updateCall (now : Nat) (targetCallId : String) (upd : StatusUpdate)
    (c : SchedToolCall) : SchedToolCall :=
  if c.request.callId ≠ targetCallId ∨ isTerminal c.status then c
  else
    let durationMs := c.startTime.map (fun t0 => now - t0)
    match upd with
    | .toSuccess resp =>
        { request := c.request, tool := c.tool, status := .success
          response := some resp, durationMs := durationMs, outcome := c.outcome
          confirmationDetails := none, startTime := none, liveOutput := none }
    | .toError resp =>
        { request := c.request, tool := none, status := .error
          response := some resp, durationMs := durationMs, outcome := c.outcome
          confirmationDetails := none, startTime := none, liveOutput := none }
    | .toAwaitingApproval details =>
        { request := c.request, tool := c.tool, status := .awaitingApproval
          confirmationDetails := some details, startTime := c.startTime
          outcome := c.outcome, response := none, durationMs := none
          liveOutput := none }
    | .toScheduled =>
        { request := c.request, tool := c.tool, status := .scheduled
          startTime := c.startTime, outcome := c.outcome, response := none
          durationMs := none, confirmationDetails := none, liveOutput := none }
    | .toCancelled reason =>
        { request := c.request, tool := c.tool, status := .cancelled
          response := some (cancelledResponse c.request reason)
          durationMs := durationMs, outcome := c.outcome
          confirmationDetails := none, startTime := none, liveOutput := none }
    | .toValidating =>
        { request := c.request, tool := c.tool, status := .validating
          startTime := c.startTime, outcome := c.outcome, response := none
          durationMs := none, confirmationDetails := none, liveOutput := none }
    | .toExecuting =>
        { request := c.request, tool := c.tool, status := .executing
          startTime := c.startTime, outcome := c.outcome, response := none
          durationMs := none, confirmationDetails := none, liveOutput := none }

/-- Scheduler state: the active set plus the externally observable effects
(the batches delivered to `onAllToolCallsComplete`, and the per-call audit
records emitted through `logToolCall`). -/
structure SchedulerState where
  toolCalls : List SchedToolCall
  completedBatches : List (List SchedToolCall)
  auditLog : List SchedToolCall
deriving DecidableEq, Repr

/-- `checkAndNotifyCompletion` from `coreToolScheduler.js`: when the active
set is non-empty and every call is terminal, the batch is drained — the set
is cleared, one audit record is logged per call, and the full batch is
delivered as one completion notification. -/
def checkAndNotifyCompletion (st : SchedulerState) : SchedulerState :=
  if 0 < st.toolCalls.length ∧ (∀ c ∈ st.toolCalls, isTerminal c.status) then
    { toolCalls := []
      completedBatches := st.completedBatches ++ [st.toolCalls]
      auditLog := st.auditLog ++ st.toolCalls }
  else st

/-- `setStatusInternal` from `coreToolScheduler.js`: map the per-call update
over the active set, then run the completion check. -/
def setStatusInternal (now : Nat) (targetCallId : String) (upd : StatusUpdate)
    (st : SchedulerState) : SchedulerState :=
  checkAndNotifyCompletion
    { st with toolCalls := st.toolCalls.map (updateCall now targetCallId upd) }

/-- `isRunning` from `coreToolScheduler.js`. -/
def isRunning (st : SchedulerState) : Bool :=
  st.toolCalls.any (fun c => isActiveStatus c.status)

/-- `attemptExecutionOfScheduledCalls` from `coreToolScheduler.js`.  Its
synchronous part: when every call is terminal or `scheduled`, each
`scheduled` call is moved to `executing` and its execution is launched; the
launched call ids are returned (their asynchronous settlement is
`settleExecution` below).  Otherwise nothing happens. -/
def attemptExecutionOfScheduledCalls (now : Nat) (st : SchedulerState) :
    SchedulerState × List String :=
  if st.toolCalls.all (fun c => isFinalOrScheduled c.status) then
    let ids := (st.toolCalls.filter (fun c => c.status = .scheduled)).map
      (fun c => c.request.callId)
    (ids.foldl (fun s i => setStatusInternal now i .toExecuting s) st, ids)
  else (st, [])

/-- A tool's `ToolResult` (`llmContent` plus `returnDisplay`). -/
structure ToolResultModel where
  llmContent : PartListUnion
  returnDisplay : Option String
deriving DecidableEq, Repr

/-- How a launched execution promise settles: the `execute` promise either
resolves with a result or rejects with an error. -/
inductive ExecSettlement where
  | resolved (r : ToolResultModel)
  | rejected (message : String)
deriving DecidableEq, Repr

/-- The `.then`/`.catch` settlement handlers installed by
`attemptExecutionOfScheduledCalls` (`coreToolScheduler.js` lines 325–345):
`aborted` is the state of the shared cancellation token when the promise
settles.  The `.then` handler checks `signal.aborted` and forces
`cancelled`; the `.catch` handler does not consult the token and always
records `error`. -/
def settleExecution (now : Nat) (aborted : Bool) (req : ToolCallRequestInfo)
    (s : ExecSettlement) (st : SchedulerState) : SchedulerState :=
  match s with
  | .resolved r =>
      if aborted then
        setStatusInternal now req.callId
          (.toCancelled "User cancelled tool execution.") st
      else
        setStatusInternal now req.callId
          (.toSuccess
            { callId := req.callId
              responseParts := convertToFunctionResponse req.name req.callId r.llmContent
              resultDisplay := r.returnDisplay
              errorMessage := none }) st
  | .rejected message =>
      setStatusInternal now req.callId
        (.toError (createErrorResponse req message)) st

/-- The result of a tool's `shouldConfirmExecute` as seen by `schedule`:
it may throw, return confirmation details, or return `false`. -/
inductive ConfirmDecision where
  | throws (message : String)
  | details (d : String)
  | noConfirm
deriving DecidableEq, Repr

/-- The admission phase of `schedule` (`coreToolScheduler.js` lines
203–227): after the `isRunning` gate, each request is resolved against the
registry — unknown tools become immediate `error` calls, known tools become
`validating` calls — and the new calls are appended to the active set. -/
def mkNewToolCall (now : Nat) (registry : String → Option String)
    (req : ToolCallRequestInfo) : SchedToolCall :=
  match registry req.name with
  | none =>
      { request := req, status := .error, tool := none
        response := some (createErrorResponse req
          ("Tool \"" ++ req.name ++ "\" not found in registry."))
        durationMs := some 0, startTime := none, confirmationDetails := none
        outcome := none, liveOutput := none }
  | some t =>
      { request := req, status := .validating, tool := some t
        startTime := some now, response := none, durationMs := none
        confirmationDetails := none, outcome := none, liveOutput := none }

/-- Admission: append the new calls to the active set. -/
def scheduleAdmit (now : Nat) (registry : String → Option String)
    (reqs : List ToolCallRequestInfo) (st : SchedulerState) :
    SchedulerState × List SchedToolCall :=
  let newCalls := reqs.map (mkNewToolCall now registry)
  ({ st with toolCalls := st.toolCalls ++ newCalls }, newCalls)

/-- The confirmation loop body of `schedule`: each newly created call that
is still `validating` is routed through the approval policy — `YOLO` mode
schedules directly, otherwise the tool's `shouldConfirmExecute` decides
(details ⇒ `awaiting_approval`, none ⇒ `scheduled`, throw ⇒ `error`). -/
def processNewCall (now : Nat) (mode : ApprovalMode)
    (confirm : ToolCallRequestInfo → ConfirmDecision)
    (st : SchedulerState) (tc : SchedToolCall) : SchedulerState :=
  match tc.status with
  | .validating =>
    (match mode with
     | .yolo => setStatusInternal now tc.request.callId .toScheduled st
     | _ =>
       match confirm tc.request with
       | .throws message =>
           setStatusInternal now tc.request.callId
             (.toError (createErrorResponse tc.request message)) st
       | .details d =>
           setStatusInternal now tc.request.callId (.toAwaitingApproval d) st
       | .noConfirm =>
           setStatusInternal now tc.request.callId .toScheduled st)
  | _ => st

/-- `schedule` from `coreToolScheduler.js`: rejected outright while any
existing call is `executing` or `awaiting_approval`; otherwise admission,
the confirmation loop, `attemptExecutionOfScheduledCalls`, and the
completion check. -/
def schedule (now : Nat) (mode : ApprovalMode)
    (registry : String → Option String)
    (confirm : ToolCallRequestInfo → ConfirmDecision)
    (reqs : List ToolCallRequestInfo) (st : SchedulerState) :
    Except String SchedulerState :=
  if isRunning st then
    .error "Cannot schedule new tool calls while other tool calls are actively running (executing or awaiting approval)."
  else
    let admitted := scheduleAdmit now registry reqs st
    let st2 := admitted.2.foldl (processNewCall now mode confirm) admitted.1
    .ok (checkAndNotifyCompletion (attemptExecutionOfScheduledCalls now st2).1)

/-! ## Scheduler lemmas -/

/-- Calls already terminal are returned unchanged by the status map. -/
lemma updateCall_of_terminal (now : Nat) (cid : String) (upd : StatusUpdate)
    (c : SchedToolCall) (h : isTerminal c.status = true) :
    updateCall now cid upd c = c := by
  unfold updateCall
  rw [if_pos (Or.inr (by simp [h]))]

/-- A call that survives a completion check is either still tracked or in
the batch that was delivered. -/
lemma mem_toolCalls_after_check (st : SchedulerState) (x : SchedToolCall)
    (hx : x ∈ st.toolCalls) :
    x ∈ (checkAndNotifyCompletion st).toolCalls
    ∨ ∃ b ∈ (checkAndNotifyCompletion st).completedBatches, x ∈ b := by
  unfold checkAndNotifyCompletion
  split
  · right
    exact ⟨st.toolCalls, by simp, hx⟩
  · left
    exact hx

/-- Claim C2: the batch-complete notification fires exactly once and only
when every tracked call is terminal; at that point the batch is drained
atomically — one audit record per call, the notification carries the full
set of terminal calls, and the active set is cleared, making `isRunning`
false again (re-enabling admission). -/
theorem checkAndNotifyCompletion_fires_once (st : SchedulerState) :
    (st.toolCalls ≠ [] ∧ (∀ c ∈ st.toolCalls, isTerminal c.status = true) →
      (checkAndNotifyCompletion st).completedBatches
          = st.completedBatches ++ [st.toolCalls]
      ∧ (checkAndNotifyCompletion st).toolCalls = []
      ∧ (checkAndNotifyCompletion st).auditLog = st.auditLog ++ st.toolCalls
      ∧ (checkAndNotifyCompletion st).auditLog.length
          = st.auditLog.length + st.toolCalls.length
      ∧ isRunning (checkAndNotifyCompletion st) = false)
    ∧ ((st.toolCalls = [] ∨ ∃ c ∈ st.toolCalls, isTerminal c.status = false) →
      checkAndNotifyCompletion st = st)
    ∧ checkAndNotifyCompletion (checkAndNotifyCompletion st)
        = checkAndNotifyCompletion st := by
  refine ⟨?_, ?_, ?_⟩
  · rintro ⟨hne, hall⟩
    have hcond : 0 < st.toolCalls.length ∧ ∀ c ∈ st.toolCalls, isTerminal c.status := by
      exact ⟨List.length_pos.mpr hne, hall⟩
    unfold checkAndNotifyCompletion
    rw [if_pos hcond]
    refine ⟨rfl, rfl, rfl, by simp, by simp [isRunning]⟩
  · intro h
    unfold checkAndNotifyCompletion
    rw [if_neg]
    rintro ⟨hlen, hall⟩
    rcases h with h | ⟨c, hc, hterm⟩
    · simp [h] at hlen
    · have := hall c hc
      simp [this] at hterm
  · by_cases hcond : 0 < st.toolCalls.length ∧ ∀ c ∈ st.toolCalls, isTerminal c.status
    · have h1 : checkAndNotifyCompletion st
          = ⟨[], st.completedBatches ++ [st.toolCalls], st.auditLog ++ st.toolCalls⟩ := by
        unfold checkAndNotifyCompletion
        rw [if_pos hcond]
      rw [h1]
      unfold checkAndNotifyCompletion
      rw [if_neg (by simp)]
    · unfold checkAndNotifyCompletion
      rw [if_neg hcond, if_neg hcond]

/-- Claim C3: `schedule` is rejected outright — with the concurrent
scheduling error and no change to the (purely threaded) active set — exactly
when some existing call is `executing` or `awaiting_approval`; otherwise it
succeeds and the admission phase appends the calls created from the incoming
requests to the active set. -/
theorem schedule_admission_gate (now : Nat) (mode : ApprovalMode)
    (registry : String → Option String)
    (confirm : ToolCallRequestInfo → ConfirmDecision)
    (reqs : List ToolCallRequestInfo) (st : SchedulerState) :
    (isRunning st = true →
      schedule now mode registry confirm reqs st
        = .error "Cannot schedule new tool calls while other tool calls are actively running (executing or awaiting approval).")
    ∧ (isRunning st = false →
      (∃ stNew, schedule now mode registry confirm reqs st = .ok stNew)
      ∧ (scheduleAdmit now registry reqs st).1.toolCalls
          = st.toolCalls ++ reqs.map (mkNewToolCall now registry)) := by
  constructor
  · intro h
    unfold schedule
    rw [if_pos h]
  · intro h
    constructor
    · have he : schedule now mode registry confirm reqs st
          = .ok (checkAndNotifyCompletion
              (attemptExecutionOfScheduledCalls now
                ((scheduleAdmit now registry reqs st).2.foldl
                  (processNewCall now mode confirm)
                  (scheduleAdmit now registry reqs st).1)).1) := by
        unfold schedule
        rw [if_neg (by simp [h])]
      exact ⟨_, he⟩
    · rfl

/-- Claim C10: once a tracked call is terminal, no later `setStatusInternal`
— whatever its target, status and payload — changes its record: the per-call
update is the identity on it, and in the resulting state the call is either
still present unchanged or the whole batch has been drained. -/
theorem terminal_call_immutable (now : Nat) (cid : String)
    (upd : StatusUpdate) (st : SchedulerState) (c : SchedToolCall)
    (hmem : c ∈ st.toolCalls) (hterm : isTerminal c.status = true) :
    updateCall now cid upd c = c
    ∧ ((setStatusInternal now cid upd st).toolCalls = []
       ∨ c ∈ (setStatusInternal now cid upd st).toolCalls
       ∨ ∃ b ∈ (setStatusInternal now cid upd st).completedBatches, c ∈ b) := by
  have hfix := updateCall_of_terminal now cid upd c hterm
  refine ⟨hfix, ?_⟩
  have hmem1 : c ∈ st.toolCalls.map (updateCall now cid upd) := by
    rw [← hfix]
    exact List.mem_map_of_mem _ hmem
  have := mem_toolCalls_after_check
    { st with toolCalls := st.toolCalls.map (updateCall now cid upd) } c hmem1
  unfold setStatusInternal
  rcases this with h | h
  · exact Or.inr (Or.inl h)
  · exact Or.inr (Or.inr h)

/-- Witness for C10 at a concrete state: a successful call is untouched by a
later cancellation update. -/
theorem terminal_call_immutable_witness :
    (⟨⟨"c1", "t", "a", false⟩, Status.success, some "t",
       none, none, none, some 3, none, none⟩ : SchedToolCall)
        ∈ ({ toolCalls := [⟨⟨"c1", "t", "a", false⟩, Status.success, some "t",
               none, none, none, some 3, none, none⟩,
             ⟨⟨"c2", "t", "a", false⟩, Status.executing, some "t",
               none, none, some 1, none, none, none⟩]
             completedBatches := [], auditLog := [] } : SchedulerState).toolCalls
    ∧ updateCall 9 "c1" (.toCancelled "late")
        (⟨⟨"c1", "t", "a", false⟩, Status.success, some "t",
           none, none, none, some 3, none, none⟩ : SchedToolCall)
        = ⟨⟨"c1", "t", "a", false⟩, Status.success, some "t",
           none, none, none, some 3, none, none⟩ := by
  refine ⟨by simp, ?_⟩
  exact (terminal_call_immutable 9 "c1" (.toCancelled "late")
    { toolCalls := [⟨⟨"c1", "t", "a", false⟩, Status.success, some "t",
        none, none, none, some 3, none, none⟩,
      ⟨⟨"c2", "t", "a", false⟩, Status.executing, some "t",
        none, none, some 1, none, none, none⟩]
      completedBatches := [], auditLog := [] }
    ⟨⟨"c1", "t", "a", false⟩, Status.success, some "t",
      none, none, none, some 3, none, none⟩
    (by simp) (by rfl)).1

/-- Counterexample for C4 as stated: one executing call whose `execute`
rejects after the shared token has fired (`aborted = true`) settles — and is
drained — as `error`, not `cancelled`: the `.catch` handler never consults
the token. -/
theorem settle_rejected_after_abort_is_error :
    ((settleExecution 5 true ⟨"call-1", "tool-1", "a", false⟩
        (.rejected "tool crashed")
        { toolCalls := [⟨⟨"call-1", "tool-1", "a", false⟩, Status.executing,
            some "tool-1", none, none, some 2, none, none, none⟩]
          completedBatches := [], auditLog := [] }).completedBatches.map
        (fun b => b.map (fun c => c.status)) = [[Status.error]])
    ∧ Status.error ≠ Status.cancelled := by
  exact ⟨rfl, by decide⟩

/-- Claim C4 (amended): when the shared token has fired by settlement time,
a call whose `execute` resolves is forced to `cancelled`; but a call whose
`execute` rejects settles as `error` — whether or not the token has fired —
because only the `.then` handler consults the token.  Either way the settled
record (same request) is still tracked or sits in a drained batch. -/
theorem settle_after_abort (now : Nat) (req : ToolCallRequestInfo)
    (r : ToolResultModel) (message : String) (st : SchedulerState)
    (c : SchedToolCall) (hmem : c ∈ st.toolCalls)
    (hid : c.request.callId = req.callId) (hexec : c.status = .executing) :
    (∃ c1, c1.request = c.request ∧ c1.status = .cancelled
       ∧ (c1 ∈ (settleExecution now true req (.resolved r) st).toolCalls
          ∨ ∃ b ∈ (settleExecution now true req (.resolved r) st).completedBatches,
              c1 ∈ b))
    ∧ (∀ aborted : Bool,
        ∃ c2, c2.request = c.request ∧ c2.status = .error
        ∧ (c2 ∈ (settleExecution now aborted req (.rejected message) st).toolCalls
           ∨ ∃ b ∈ (settleExecution now aborted req (.rejected message) st).completedBatches,
               c2 ∈ b)) := by
  have hcond : ¬(c.request.callId ≠ req.callId ∨ isTerminal c.status) := by
    rintro (h | h)
    · exact h hid
    · rw [hexec] at h
      simp [isTerminal] at h
  constructor
  · refine ⟨updateCall now req.callId
      (.toCancelled "User cancelled tool execution.") c, ?_, ?_, ?_⟩
    · unfold updateCall
      rw [if_neg hcond]
    · unfold updateCall
      rw [if_neg hcond]
    · have hm : updateCall now req.callId
          (.toCancelled "User cancelled tool execution.") c
          ∈ st.toolCalls.map (updateCall now req.callId
              (.toCancelled "User cancelled tool execution.")) :=
        List.mem_map_of_mem _ hmem
      exact mem_toolCalls_after_check
        { st with toolCalls := st.toolCalls.map (updateCall now req.callId
            (.toCancelled "User cancelled tool execution.")) } _ hm
  · intro aborted
    refine ⟨updateCall now req.callId
      (.toError (createErrorResponse req message)) c, ?_, ?_, ?_⟩
    · unfold updateCall
      rw [if_neg hcond]
    · unfold updateCall
      rw [if_neg hcond]
    · have hm : updateCall now req.callId
          (.toError (createErrorResponse req message)) c
          ∈ st.toolCalls.map (updateCall now req.callId
              (.toError (createErrorResponse req message))) :=
        List.mem_map_of_mem _ hmem
      exact mem_toolCalls_after_check
        { st with toolCalls := st.toolCalls.map (updateCall now req.callId
            (.toError (createErrorResponse req message))) } _ hm

/-- Witness for the amended C4 at a concrete executing call. -/
theorem settle_after_abort_witness :
    ∃ c1, c1.request = (⟨"call-1", "tool-1", "a", false⟩ : ToolCallRequestInfo)
      ∧ c1.status = Status.cancelled
      ∧ (c1 ∈ (settleExecution 5 true ⟨"call-1", "tool-1", "a", false⟩
            (.resolved ⟨.str "done", some "done"⟩)
            { toolCalls := [⟨⟨"call-1", "tool-1", "a", false⟩, Status.executing,
                some "tool-1", none, none, some 2, none, none, none⟩]
              completedBatches := [], auditLog := [] }).toolCalls
         ∨ ∃ b ∈ (settleExecution 5 true ⟨"call-1", "tool-1", "a", false⟩
            (.resolved ⟨.str "done", some "done"⟩)
            { toolCalls := [⟨⟨"call-1", "tool-1", "a", false⟩, Status.executing,
                some "tool-1", none, none, some 2, none, none, none⟩]
              completedBatches := [], auditLog := [] }).completedBatches, c1 ∈ b) := by
  exact (settle_after_abort 5 ⟨"call-1", "tool-1", "a", false⟩
    ⟨.str "done", some "done"⟩ "m"
    { toolCalls := [⟨⟨"call-1", "tool-1", "a", false⟩, Status.executing,
        some "tool-1", none, none, some 2, none, none, none⟩]
      completedBatches := [], auditLog := [] }
    ⟨⟨"call-1", "tool-1", "a", false⟩, Status.executing,
      some "tool-1", none, none, some 2, none, none, none⟩
    (by simp) rfl rfl).1

/-! ## Launch-gate lemmas for `attemptExecutionOfScheduledCalls` -/

/-- `scheduled` or `executing`: the statuses that keep a batch undrained
while the launch loop runs. -/
def isLive : Status → Bool
  | .scheduled | .executing => true
  | _ => false

lemma isLive_not_terminal (s : Status) (h : isLive s = true) :
    isTerminal s = false := by
  cases s <;> simp_all [isLive, isTerminal]

lemma updateCall_exec_live (now : Nat) (i : String) (c : SchedToolCall)
    (h : isLive c.status = true) :
    isLive (updateCall now i .toExecuting c).status = true := by
  unfold updateCall
  split
  · exact h
  · simp [isLive]

lemma checkAndNotify_of_live (st : SchedulerState)
    (h : ∃ c ∈ st.toolCalls, isLive c.status = true) :
    checkAndNotifyCompletion st = st := by
  unfold checkAndNotifyCompletion
  rw [if_neg]
  rintro ⟨-, hall⟩
  obtain ⟨c, hc, hl⟩ := h
  have := hall c hc
  rw [isLive_not_terminal _ hl] at this
  exact Bool.false_ne_true this

lemma execStep_toolCalls (now : Nat) (i : String) (st : SchedulerState)
    (h : ∃ c ∈ st.toolCalls, isLive c.status = true) :
    (setStatusInternal now i .toExecuting st).toolCalls
        = st.toolCalls.map (updateCall now i .toExecuting)
    ∧ (setStatusInternal now i .toExecuting st).completedBatches
        = st.completedBatches
    ∧ ∃ c ∈ (setStatusInternal now i .toExecuting st).toolCalls,
        isLive c.status = true := by
  obtain ⟨c, hc, hl⟩ := h
  have hlive : ∃ c ∈ st.toolCalls.map (updateCall now i .toExecuting),
      isLive c.status = true :=
    ⟨updateCall now i .toExecuting c, List.mem_map_of_mem _ hc,
      updateCall_exec_live now i c hl⟩
  have hid := checkAndNotify_of_live
    { st with toolCalls := st.toolCalls.map (updateCall now i .toExecuting) } hlive
  unfold setStatusInternal
  rw [hid]
  exact ⟨rfl, rfl, hlive⟩

lemma foldExec_toolCalls (now : Nat) (l : List String) :
    ∀ st : SchedulerState, (∃ c ∈ st.toolCalls, isLive c.status = true) →
    (l.foldl (fun s i => setStatusInternal now i .toExecuting s) st).toolCalls
      = st.toolCalls.map
          (fun c => l.foldl (fun c i => updateCall now i .toExecuting c) c)
    ∧ (l.foldl (fun s i => setStatusInternal now i .toExecuting s) st).completedBatches
      = st.completedBatches := by
  induction l with
  | nil =>
    intro st _
    simp
  | cons i tl ih =>
    intro st h
    have hstep := execStep_toolCalls now i st h
    have hih := ih (setStatusInternal now i .toExecuting st) hstep.2.2
    constructor
    · rw [List.foldl_cons, hih.1, hstep.1, List.map_map]
      simp [Function.comp, List.foldl_cons]
    · rw [List.foldl_cons, hih.2, hstep.2.1]

lemma foldUpdate_terminal (now : Nat) (l : List String) (c : SchedToolCall)
    (h : isTerminal c.status = true) :
    l.foldl (fun c i => updateCall now i .toExecuting c) c = c := by
  induction l with
  | nil => rfl
  | cons i tl ih =>
    rw [List.foldl_cons, updateCall_of_terminal now i .toExecuting c h]
    exact ih

lemma foldUpdate_executing (now : Nat) (l : List String) :
    ∀ c : SchedToolCall, c.status = .executing →
    (l.foldl (fun c i => updateCall now i .toExecuting c) c).status = .executing := by
  induction l with
  | nil =>
    intro c h
    exact h
  | cons i tl ih =>
    intro c h
    rw [List.foldl_cons]
    apply ih
    unfold updateCall
    split
    · exact h
    · rfl

lemma foldUpdate_scheduled (now : Nat) (l : List String) :
    ∀ c : SchedToolCall, c.status = .scheduled → c.request.callId ∈ l →
    (l.foldl (fun c i => updateCall now i .toExecuting c) c).status = .executing := by
  induction l with
  | nil =>
    intro c _ hmem
    exact absurd hmem (List.not_mem_nil _)
  | cons i tl ih =>
    intro c hs hmem
    rw [List.foldl_cons]
    by_cases hci : c.request.callId = i
    · have hupd : (updateCall now i .toExecuting c).status = .executing := by
        unfold updateCall
        rw [if_neg]
        rintro (h | h)
        · exact h hci
        · rw [hs] at h
          simp [isTerminal] at h
      exact foldUpdate_executing now tl _ hupd
    · have hupd : updateCall now i .toExecuting c = c := by
        unfold updateCall
        rw [if_pos (Or.inl hci)]
      rw [hupd]
      exact ih c hs (by
        rcases List.mem_cons.mp hmem with h | h
        · exact absurd h hci
        · exact h)

/-- Claim C1: no call transitions to `executing` while any sibling in the
tracked set is still `validating` or `awaiting_approval` (the launch attempt
is a no-op then), launches happen only when every tracked call is terminal
or `scheduled`, and at such a point every `scheduled` call — and only those
— is launched, each moving to `executing`, with no completion notification
fired by the launch loop. -/
theorem attemptExecution_launch_gate (now : Nat) (st : SchedulerState) :
    ((∃ c ∈ st.toolCalls, c.status = .validating ∨ c.status = .awaitingApproval
        ∨ c.status = .executing) →
      attemptExecutionOfScheduledCalls now st = (st, []))
    ∧ ((attemptExecutionOfScheduledCalls now st).2 ≠ [] →
      ∀ c ∈ st.toolCalls, isFinalOrScheduled c.status = true)
    ∧ ((∀ c ∈ st.toolCalls, isFinalOrScheduled c.status = true) →
      (attemptExecutionOfScheduledCalls now st).2
        = (st.toolCalls.filter (fun c => c.status = .scheduled)).map
            (fun c => c.request.callId)
      ∧ (attemptExecutionOfScheduledCalls now st).1.toolCalls.map (fun c => c.status)
        = st.toolCalls.map
            (fun c => if c.status = .scheduled then Status.executing else c.status)
      ∧ (attemptExecutionOfScheduledCalls now st).1.completedBatches
        = st.completedBatches) := by
  refine ⟨?_, ?_, ?_⟩
  · rintro ⟨c, hc, hs⟩
    unfold attemptExecutionOfScheduledCalls
    rw [if_neg]
    intro hall
    have := List.all_eq_true.mp hall c hc
    rcases hs with h | h | h <;> rw [h] at this <;> simp [isFinalOrScheduled] at this
  · intro hne
    by_cases hall : st.toolCalls.all (fun c => isFinalOrScheduled c.status)
    · exact fun c hc => List.all_eq_true.mp hall c hc
    · exfalso
      apply hne
      unfold attemptExecutionOfScheduledCalls
      rw [if_neg hall]
  · intro hall
    have hallb : st.toolCalls.all (fun c => isFinalOrScheduled c.status) = true :=
      List.all_eq_true.mpr hall
    have hunf : attemptExecutionOfScheduledCalls now st
        = (((st.toolCalls.filter (fun c => c.status = .scheduled)).map
              (fun c => c.request.callId)).foldl
            (fun s i => setStatusInternal now i .toExecuting s) st,
           (st.toolCalls.filter (fun c => c.status = .scheduled)).map
              (fun c => c.request.callId)) := by
      unfold attemptExecutionOfScheduledCalls
      rw [if_pos hallb]
    rw [hunf]
    refine ⟨rfl, ?_, ?_⟩
    · by_cases hsched : ∃ c ∈ st.toolCalls, c.status = .scheduled
      · have hlive : ∃ c ∈ st.toolCalls, isLive c.status = true := by
          obtain ⟨c, hc, hs⟩ := hsched
          exact ⟨c, hc, by rw [hs]; rfl⟩
        have hfold := foldExec_toolCalls now
          ((st.toolCalls.filter (fun c => c.status = .scheduled)).map
            (fun c => c.request.callId)) st hlive
        rw [hfold.1, List.map_map]
        apply List.map_congr_left
        intro c hc
        simp only [Function.comp]
        by_cases hcs : c.status = .scheduled
        · have hmem : c.request.callId
              ∈ (st.toolCalls.filter (fun c => c.status = .scheduled)).map
                  (fun c => c.request.callId) := by
            apply List.mem_map_of_mem
            rw [List.mem_filter]
            exact ⟨hc, by simp [hcs]⟩
          rw [foldUpdate_scheduled now _ c hcs hmem, if_pos hcs]
        · have hterm : isTerminal c.status = true := by
            have := hall c hc
            cases hs : c.status <;> rw [hs] at this hcs <;>
              simp_all [isFinalOrScheduled, isTerminal]
          rw [foldUpdate_terminal now _ c hterm, if_neg hcs]
      · have hfilter : st.toolCalls.filter (fun c => c.status = .scheduled) = [] := by
          rw [List.filter_eq_nil_iff]
          intro c hc
          simp only [decide_eq_true_eq]
          exact fun hs => hsched ⟨c, hc, hs⟩
        rw [hfilter]
        simp only [List.map_nil, List.foldl_nil]
        apply List.map_congr_left
        intro c hc
        rw [if_neg (fun hs => hsched ⟨c, hc, hs⟩)]
    · by_cases hsched : ∃ c ∈ st.toolCalls, c.status = .scheduled
      · have hlive : ∃ c ∈ st.toolCalls, isLive c.status = true := by
          obtain ⟨c, hc, hs⟩ := hsched
          exact ⟨c, hc, by rw [hs]; rfl⟩
        exact (foldExec_toolCalls now _ st hlive).2
      · have hfilter : st.toolCalls.filter (fun c => c.status = .scheduled) = [] := by
          rw [List.filter_eq_nil_iff]
          intro c hc
          simp only [decide_eq_true_eq]
          exact fun hs => hsched ⟨c, hc, hs⟩
        rw [hfilter]
        rfl

/-- Witness for C1 at a concrete state: one `scheduled` and one `success`
call — the launch condition holds and exactly the scheduled call's id is
launched. -/
theorem attemptExecution_launch_gate_witness :
    (∀ c ∈ ({ toolCalls := [⟨⟨"a", "t", "x", false⟩, Status.scheduled, some "t",
                none, none, some 1, none, none, none⟩,
              ⟨⟨"b", "t", "x", false⟩, Status.success, some "t",
                none, none, none, some 0, none, none⟩]
              completedBatches := [], auditLog := [] } : SchedulerState).toolCalls,
      isFinalOrScheduled c.status = true)
    ∧ (attemptExecutionOfScheduledCalls 4
        { toolCalls := [⟨⟨"a", "t", "x", false⟩, Status.scheduled, some "t",
            none, none, some 1, none, none, none⟩,
          ⟨⟨"b", "t", "x", false⟩, Status.success, some "t",
            none, none, none, some 0, none, none⟩]
          completedBatches := [], auditLog := [] }).2 = ["a"] := by
  refine ⟨by decide, ?_⟩
  have h := (attemptExecution_launch_gate 4
    { toolCalls := [⟨⟨"a", "t", "x", false⟩, Status.scheduled, some "t",
        none, none, some 1, none, none, none⟩,
      ⟨⟨"b", "t", "x", false⟩, Status.success, some "t",
        none, none, none, some 0, none, none⟩]
      completedBatches := [], auditLog := [] }).2.2 (by decide)
  exact h.1.trans (by decide)

/-- Witness for C2 at a concrete state: a single cancelled call is drained
into exactly one notification. -/
theorem checkAndNotifyCompletion_fires_once_witness :
    (checkAndNotifyCompletion
        { toolCalls := [⟨⟨"c", "t", "x", false⟩, Status.cancelled, some "t",
            none, none, none, some 2, none, none⟩]
          completedBatches := [], auditLog := [] }).completedBatches
      = [[⟨⟨"c", "t", "x", false⟩, Status.cancelled, some "t",
            none, none, none, some 2, none, none⟩]]
    ∧ (checkAndNotifyCompletion
        { toolCalls := [⟨⟨"c", "t", "x", false⟩, Status.cancelled, some "t",
            none, none, none, some 2, none, none⟩]
          completedBatches := [], auditLog := [] }).toolCalls = [] := by
  have h := (checkAndNotifyCompletion_fires_once
    { toolCalls := [⟨⟨"c", "t", "x", false⟩, Status.cancelled, some "t",
        none, none, none, some 2, none, none⟩]
      completedBatches := [], auditLog := [] }).1 ⟨by decide, by decide⟩
  exact ⟨h.1.trans (by decide), h.2.1⟩

/-- Witness for C3 at a concrete state: an `awaiting_approval` call in the
active set makes `schedule` fail with the concurrent-schedule error. -/
theorem schedule_admission_gate_witness :
    schedule 0 ApprovalMode.defaultMode (fun _ => none) (fun _ => .noConfirm) []
        { toolCalls := [⟨⟨"w", "t", "x", false⟩, Status.awaitingApproval, some "t",
            none, some "confirm", some 1, none, none, none⟩]
          completedBatches := [], auditLog := [] }
      = .error "Cannot schedule new tool calls while other tool calls are actively running (executing or awaiting approval)." := by
  exact (schedule_admission_gate 0 ApprovalMode.defaultMode (fun _ => none)
    (fun _ => .noConfirm) []
    { toolCalls := [⟨⟨"w", "t", "x", false⟩, Status.awaitingApproval, some "t",
        none, some "confirm", some 1, none, none, none⟩]
      completedBatches := [], auditLog := [] }).1 (by decide)

/-! ## Tool Capability Registry (`ToolRegistry` in `tool-registry.js`)

The registry's `Map` is embedded as an insertion-ordered association list;
`registerTool` always keys by `tool.name`, so key and name coincide.  The
tools produced by the unchanged discovery sources (the parsed output of the
discovery command wrapped as `DiscoveredTool`s, followed by the tools the
remote-protocol servers report wrapped as `DiscoveredMCPTool`s — the latter
modelled from the spec, `discoverMcpTools`'s implementation not being among
the sources) are a fixed list `src` of auto-discovered tools. -/

/-- How a tool entered the registry: manually registered, discovered via
the discovery command (`DiscoveredTool`), or discovered from a remote
protocol server (`DiscoveredMCPTool`). -/
inductive ToolKind where
  | manual
  | discoveredCmd
  | discoveredMcp
deriving DecidableEq, Repr

/-- A registry entry. -/
structure RegTool where
  name : String
  kind : ToolKind
deriving DecidableEq, Repr

/-- `tool instanceof DiscoveredTool || tool instanceof DiscoveredMCPTool`. -/
def isAutoDiscovered (t : RegTool) : Bool :=
  match t.kind with
  | .manual => false
  | _ => true

/-- `registerTool` from `tool-registry.js`: last write wins by name — a
`Map.set` on an existing key overwrites in place, otherwise appends. -/
def registerTool (tools : List RegTool) (t : RegTool) : List RegTool :=
  if tools.any (fun p => p.name = t.name) then
    tools.map (fun p => if p.name = t.name then t else p)
  else tools ++ [t]

/-- The eviction loop at the head of `discoverTools`: deletes every
previously auto-discovered tool (the JS `Map` tolerates deletion of the
entry under iteration), keeping manually registered ones. -/
def evictDiscovered (tools : List RegTool) : List RegTool :=
  tools.filter (fun t => !isAutoDiscovered t)

/-- `discoverTools` from `tool-registry.js`: evict previously discovered
tools, then register each tool produced by the (unchanged) sources. -/
def discoverTools (src : List RegTool) (tools : List RegTool) : List RegTool :=
  src.foldl registerTool (evictDiscovered tools)

/-- Lookup by exact name (`Map.get`). -/
def lookupTool (tools : List RegTool) (n : String) : Option RegTool :=
  tools.find? (fun t => t.name = n)

/-- The registry never holds two entries under one name. -/
def NodupKeys (tools : List RegTool) : Prop :=
  (tools.map (fun t => t.name)).Nodup

lemma nodupKeys_registerTool (tools : List RegTool) (t : RegTool)
    (h : NodupKeys tools) : NodupKeys (registerTool tools t) := by
  unfold registerTool
  split
  · unfold NodupKeys at h ⊢
    have : (tools.map (fun p => if p.name = t.name then t else p)).map
        (fun t => t.name) = tools.map (fun t => t.name) := by
      rw [List.map_map]
      apply List.map_congr_left
      intro p _
      simp only [Function.comp]
      split
      · rename_i heq
        rw [heq]
      · rfl
    rw [this]
    exact h
  · rename_i hnone
    unfold NodupKeys at h ⊢
    rw [List.map_append]
    simp only [List.map_cons, List.map_nil]
    rw [List.nodup_append]
    refine ⟨h, List.nodup_singleton _, ?_⟩
    intro a ha
    simp only [List.mem_singleton]
    intro hb
    rw [List.any_eq_true] at hnone
    obtain ⟨p, hp, hpn⟩ := List.mem_map.mp ha
    apply hnone
    refine ⟨p, hp, ?_⟩
    simp [hpn, hb]

lemma nodupKeys_foldRegister (src : List RegTool) :
    ∀ tools : List RegTool, NodupKeys tools →
    NodupKeys (src.foldl registerTool tools) := by
  induction src with
  | nil => intro tools h; exact h
  | cons t tl ih =>
    intro tools h
    rw [List.foldl_cons]
    exact ih _ (nodupKeys_registerTool tools t h)

lemma nodupKeys_evict (tools : List RegTool) (h : NodupKeys tools) :
    NodupKeys (evictDiscovered tools) := by
  unfold NodupKeys at h ⊢
  unfold evictDiscovered
  exact (List.Sublist.map (fun t => t.name) (List.filter_sublist tools)).nodup h

lemma lookupTool_eq_none_of_not_mem (tools : List RegTool) (n : String)
    (h : ∀ t ∈ tools, t.name ≠ n) : lookupTool tools n = none := by
  unfold lookupTool
  rw [List.find?_eq_none]
  intro t ht
  simp only [decide_eq_true_eq]
  exact h t ht

lemma find?_map_overwrite (tools : List RegTool) (t : RegTool) (n : String)
    (hne : n ≠ t.name) :
    (tools.map (fun p => if p.name = t.name then t else p)).find?
        (fun q => q.name = n)
      = tools.find? (fun q => q.name = n) := by
  induction tools with
  | nil => rfl
  | cons p tl ih =>
    simp only [List.map_cons]
    by_cases hpt : p.name = t.name
    · rw [if_pos hpt]
      rw [List.find?_cons_of_neg _ (by simp [Ne.symm hne]),
        List.find?_cons_of_neg _ (by simp [hpt, Ne.symm hne])]
      exact ih
    · rw [if_neg hpt]
      by_cases hpn : p.name = n
      · rw [List.find?_cons_of_pos _ (by simp [hpn]),
          List.find?_cons_of_pos _ (by simp [hpn])]
      · rw [List.find?_cons_of_neg _ (by simp [hpn]),
          List.find?_cons_of_neg _ (by simp [hpn])]
        exact ih

lemma find?_map_overwrite_self (tools : List RegTool) (t : RegTool)
    (hany : tools.any (fun p => p.name = t.name) = true) :
    (tools.map (fun p => if p.name = t.name then t else p)).find?
        (fun q => q.name = t.name)
      = some t := by
  induction tools with
  | nil => simp at hany
  | cons p tl ih =>
    simp only [List.map_cons]
    by_cases hpt : p.name = t.name
    · rw [if_pos hpt]
      rw [List.find?_cons_of_pos _ (by simp)]
    · rw [if_neg hpt]
      rw [List.find?_cons_of_neg _ (by simp [hpt])]
      apply ih
      simp only [List.any_cons, Bool.or_eq_true] at hany
      rcases hany with h | h
      · simp [hpt] at h
      · exact h

lemma lookupTool_registerTool (tools : List RegTool) (t : RegTool)
    (n : String) :
    lookupTool (registerTool tools t) n
      = if n = t.name then some t else lookupTool tools n := by
  unfold registerTool lookupTool
  by_cases hany : tools.any (fun p => p.name = t.name)
  · rw [if_pos hany]
    by_cases hn : n = t.name
    · rw [if_pos hn, hn]
      exact find?_map_overwrite_self tools t hany
    · rw [if_neg hn]
      exact find?_map_overwrite tools t n hn
  · rw [if_neg hany]
    by_cases hn : n = t.name
    · rw [if_pos hn]
      have hnone : tools.find? (fun q => q.name = n) = none := by
        rw [List.find?_eq_none]
        intro q hq
        simp only [decide_eq_true_eq]
        intro hqn
        apply hany
        rw [List.any_eq_true]
        exact ⟨q, hq, by simp [hqn, hn]⟩
      induction tools with
      | nil => simp [hn]
      | cons p tl ih =>
        have hpn : ¬(p.name = n) := by
          intro hp
          rw [List.find?_cons_of_pos _ (by simp [hp])] at hnone
          exact Option.some_ne_none _ hnone
        rw [List.cons_append, List.find?_cons_of_neg _ (by simp [hpn])]
        apply ih
        · intro h'
          apply hany
          rw [List.any_eq_true] at h' ⊢
          obtain ⟨q, hq, hqt⟩ := h'
          exact ⟨q, List.mem_cons_of_mem _ hq, hqt⟩
        · rw [List.find?_cons_of_neg _ (by simp [hpn])] at hnone
          exact hnone
    · rw [if_neg hn]
      induction tools with
      | nil => simp [Ne.symm hn]
      | cons p tl ih =>
        by_cases hpn : p.name = n
        · rw [List.cons_append, List.find?_cons_of_pos _ (by simp [hpn]),
            List.find?_cons_of_pos _ (by simp [hpn])]
        · rw [List.cons_append, List.find?_cons_of_neg _ (by simp [hpn]),
            List.find?_cons_of_neg _ (by simp [hpn])]
          apply ih
          intro h'
          apply hany
          rw [List.any_eq_true] at h' ⊢
          obtain ⟨q, hq, hqt⟩ := h'
          exact ⟨q, List.mem_cons_of_mem _ hq, hqt⟩

/-- The most recent tool of a given name produced by the discovery sources. -/
def lastNamedTool (src : List RegTool) (n : String) : Option RegTool :=
  src.reverse.find? (fun t => t.name = n)

lemma lastNamedTool_cons (t : RegTool) (tl : List RegTool) (n : String) :
    lastNamedTool (t :: tl) n
      = (lastNamedTool tl n).or (if n = t.name then some t else none) := by
  unfold lastNamedTool
  rw [List.reverse_cons, List.find?_append]
  cases h : tl.reverse.find? (fun t => t.name = n)
  · simp only [Option.none_or]
    by_cases hn : n = t.name
    · simp [List.find?, hn]
    · simp [List.find?, Ne.symm hn, hn]
  · simp

lemma lookupTool_foldRegister (src : List RegTool) :
    ∀ (tools : List RegTool) (n : String),
    lookupTool (src.foldl registerTool tools) n
      = (lastNamedTool src n).or (lookupTool tools n) := by
  induction src with
  | nil =>
    intro tools n
    simp [lastNamedTool]
  | cons t tl ih =>
    intro tools n
    rw [List.foldl_cons, ih (registerTool tools t) n,
      lookupTool_registerTool tools t n, lastNamedTool_cons]
    cases h : lastNamedTool tl n
    · simp only [Option.none_or]
      by_cases hn : n = t.name
      · simp [hn]
      · simp [hn]
    · simp

lemma lookupTool_evict (tools : List RegTool) (h : NodupKeys tools)
    (n : String) :
    lookupTool (evictDiscovered tools) n
      = (lookupTool tools n).bind
          (fun t => if isAutoDiscovered t then none else some t) := by
  induction tools with
  | nil => rfl
  | cons p tl ih =>
    have hnodup : NodupKeys tl := by
      unfold NodupKeys at h ⊢
      simp only [List.map_cons, List.nodup_cons] at h
      exact h.2
    have hnotin : p.name ∉ tl.map (fun t => t.name) := by
      unfold NodupKeys at h
      simp only [List.map_cons, List.nodup_cons] at h
      exact h.1
    unfold evictDiscovered at ih ⊢
    by_cases hpn : p.name = n
    · have hlookup : lookupTool (p :: tl) n = some p := by
        unfold lookupTool
        rw [List.find?_cons_of_pos _ (by simp [hpn])]
      rw [hlookup]
      by_cases hauto : isAutoDiscovered p
      · rw [List.filter_cons_of_neg (by simp [hauto])]
        simp only [hauto, if_pos, Option.some_bind]
        apply lookupTool_eq_none_of_not_mem
        intro t ht hn
        apply hnotin
        rw [List.mem_map]
        exact ⟨t, List.mem_of_mem_filter ht, by rw [hn, ← hpn]⟩
      · rw [List.filter_cons_of_pos (by simp [hauto])]
        unfold lookupTool
        rw [List.find?_cons_of_pos _ (by simp [hpn])]
        simp [hauto]
    · have hlookup : lookupTool (p :: tl) n = lookupTool tl n := by
        unfold lookupTool
        rw [List.find?_cons_of_neg _ (by simp [hpn])]
      rw [hlookup]
      by_cases hauto : isAutoDiscovered p
      · rw [List.filter_cons_of_neg (by simp [hauto])]
        exact ih hnodup
      · rw [List.filter_cons_of_pos (by simp [hauto])]
        unfold lookupTool
        rw [List.find?_cons_of_neg _ (by simp [hpn])]
        exact ih hnodup

lemma mem_iff_lookupTool (tools : List RegTool) (h : NodupKeys tools)
    (t : RegTool) : t ∈ tools ↔ lookupTool tools t.name = some t := by
  constructor
  · intro hmem
    induction tools with
    | nil => simp at hmem
    | cons p tl ih =>
      rcases List.mem_cons.mp hmem with rfl | hmem'
      · unfold lookupTool
        rw [List.find?_cons_of_pos _ (by simp)]
      · have hnodup : NodupKeys tl := by
          unfold NodupKeys at h ⊢
          simp only [List.map_cons, List.nodup_cons] at h
          exact h.2
        have hpt : ¬(p.name = t.name) := by
          intro hp
          unfold NodupKeys at h
          simp only [List.map_cons, List.nodup_cons] at h
          exact h.1 (hp ▸ List.mem_map.mpr ⟨t, hmem', rfl⟩)
        unfold lookupTool
        rw [List.find?_cons_of_neg _ (by simp [hpt])]
        exact ih hnodup hmem'
  · intro hl
    have := List.mem_of_find?_eq_some hl
    exact this

/-- Claim C8: with unchanged discovery sources `src`, running the registry's
discovery twice yields the identical tool set as running it once (same
lookup table, same members, still duplicate-free), and each run's eviction
step removes exactly the previously auto-discovered tools, never a manually
registered one. -/
theorem discoverTools_idempotent (src tools : List RegTool)
    (h : NodupKeys tools) :
    NodupKeys (discoverTools src tools)
    ∧ (∀ n, lookupTool (discoverTools src (discoverTools src tools)) n
        = lookupTool (discoverTools src tools) n)
    ∧ (∀ t, t ∈ discoverTools src (discoverTools src tools)
        ↔ t ∈ discoverTools src tools)
    ∧ (∀ t ∈ tools, (t ∈ evictDiscovered tools ↔ isAutoDiscovered t = false)) := by
  have h1 : NodupKeys (discoverTools src tools) :=
    nodupKeys_foldRegister src _ (nodupKeys_evict tools h)
  have h2 : NodupKeys (discoverTools src (discoverTools src tools)) :=
    nodupKeys_foldRegister src _ (nodupKeys_evict _ h1)
  have hlook : ∀ n, lookupTool (discoverTools src (discoverTools src tools)) n
      = lookupTool (discoverTools src tools) n := by
    intro n
    have e1 : lookupTool (discoverTools src tools) n
        = (lastNamedTool src n).or (lookupTool (evictDiscovered tools) n) :=
      lookupTool_foldRegister src (evictDiscovered tools) n
    have e2 : lookupTool (discoverTools src (discoverTools src tools)) n
        = (lastNamedTool src n).or
            (lookupTool (evictDiscovered (discoverTools src tools)) n) :=
      lookupTool_foldRegister src (evictDiscovered (discoverTools src tools)) n
    rw [e1, e2]
    cases hl : lastNamedTool src n
    · simp only [Option.none_or]
      rw [lookupTool_evict _ h1 n, e1, hl]
      simp only [Option.none_or]
      cases he : lookupTool (evictDiscovered tools) n
      · rfl
      · rename_i t
        have hmem := List.mem_of_find?_eq_some he
        have : isAutoDiscovered t = false := by
          unfold evictDiscovered at hmem
          have := List.of_mem_filter hmem
          simpa using this
        simp [this]
    · simp
  refine ⟨h1, hlook, ?_, ?_⟩
  · intro t
    rw [mem_iff_lookupTool _ h2 t, mem_iff_lookupTool _ h1 t, hlook]
  · intro t hmem
    unfold evictDiscovered
    rw [List.mem_filter]
    simp [hmem]

/-- Witness for C8 at a concrete registry: one manual tool, one stale
command-discovered tool, and a source list rediscovering a remote tool. -/
theorem discoverTools_idempotent_witness :
    (∀ n, lookupTool
        (discoverTools [⟨"remote", ToolKind.discoveredMcp⟩]
          (discoverTools [⟨"remote", ToolKind.discoveredMcp⟩]
            [⟨"manual", ToolKind.manual⟩, ⟨"stale", ToolKind.discoveredCmd⟩])) n
      = lookupTool
          (discoverTools [⟨"remote", ToolKind.discoveredMcp⟩]
            [⟨"manual", ToolKind.manual⟩, ⟨"stale", ToolKind.discoveredCmd⟩]) n)
    ∧ discoverTools [⟨"remote", ToolKind.discoveredMcp⟩]
        [⟨"manual", ToolKind.manual⟩, ⟨"stale", ToolKind.discoveredCmd⟩]
      = [⟨"manual", ToolKind.manual⟩, ⟨"remote", ToolKind.discoveredMcp⟩] := by
  constructor
  · exact (discoverTools_idempotent [⟨"remote", ToolKind.discoveredMcp⟩]
      [⟨"manual", ToolKind.manual⟩, ⟨"stale", ToolKind.discoveredCmd⟩]
      (by unfold NodupKeys; decide)).2.1
  · decide

/-! ## Conversation Orchestrator (`GeminiClient` in `client.js`) -/

/-- One history entry (`Content`): a role plus parts. -/
structure Content where
  role : String
  parts : List Part
deriving DecidableEq, Repr

/-- The environment `tryCompressChat` runs in.  `curate` stands for
`GeminiChat.getHistory(true)` and `countTokens` for
`contentGenerator.countTokens` (both live outside the orchestrator;
`geminiChat.js`'s curation is not among the sources, so the curated view is
an abstract function of the history).  `modelTokenLimit` is `tokenLimit`
applied to the configured model, and `summaryText` the text of the model's
reply to the fixed state-snapshot instruction. -/
structure CompressDeps where
  curate : List Content → List Content
  countTokens : List Content → Option Nat
  modelTokenLimit : Nat
  summaryText : String
  envParts : List Part

/-- The history `startChat(extraHistory)` builds (`client.js` lines
124–161): the environment-context user message and its fixed model
acknowledgement, then the extra history. -/
def startChatHistory (envParts : List Part) (extraHistory : List Content) :
    List Content :=
  { role := "user", parts := envParts }
    :: { role := "model", parts := [mkTextPart "Got it. Thanks for the context!"] }
    :: extraHistory

/-- `tryCompressChat` from `client.js`, with `TOKEN_THRESHOLD_FOR_SUMMARIZATION
= 0.7`; the float comparison `count < 0.7 * limit` is written in the exact
rational form `10 * count < 7 * limit`.  Returns the `ChatCompressionInfo`
(the value later emitted as a `ChatCompressed` event), the chat history
after the call, and how many summarization requests were sent. -/
def tryCompressChat (deps : CompressDeps) (force : Bool)
    (history : List Content) : Option (Nat × Nat) × List Content × Nat :=
  let curatedHistory := deps.curate history
  if curatedHistory.isEmpty then (none, history, 0)
  else
    let originalTokenCount := (deps.countTokens curatedHistory).getD 0
    if !force && decide (10 * originalTokenCount < 7 * deps.modelTokenLimit) then
      (none, history, 0)
    else
      let newHistory := startChatHistory deps.envParts
        [ { role := "user", parts := [mkTextPart deps.summaryText] },
          { role := "model",
            parts := [mkTextPart "Got it. Thanks for the additional context!"] } ]
      match deps.countTokens newHistory with
      | none => (none, newHistory, 1)
      | some newTokenCount =>
          (some (originalTokenCount, newTokenCount), newHistory, 1)

/-- Counterexample for C5 as stated: with a curated history of 8,000 tokens
against a 10,000-token limit, compression fires — but the replaced history
is the environment preamble plus the snapshot pair, 4 messages, not the
bare 2-message pair `[snapshot-as-user, ack-as-model]` the claim states
(`startChat` always prepends its environment-context pair). -/
theorem tryCompressChat_replaces_with_four_messages :
    (tryCompressChat
        { curate := fun h => h
          countTokens := fun h => if h.length = 1 then some 8000 else some 3000
          modelTokenLimit := 10000
          summaryText := "snapshot"
          envParts := [mkTextPart "env"] }
        false
        [{ role := "user", parts := [mkTextPart "hi"] }]).1
      = some (8000, 3000)
    ∧ (tryCompressChat
        { curate := fun h => h
          countTokens := fun h => if h.length = 1 then some 8000 else some 3000
          modelTokenLimit := 10000
          summaryText := "snapshot"
          envParts := [mkTextPart "env"] }
        false
        [{ role := "user", parts := [mkTextPart "hi"] }]).2.1.length = 4
    ∧ (tryCompressChat
        { curate := fun h => h
          countTokens := fun h => if h.length = 1 then some 8000 else some 3000
          modelTokenLimit := 10000
          summaryText := "snapshot"
          envParts := [mkTextPart "env"] }
        false
        [{ role := "user", parts := [mkTextPart "hi"] }]).2.1
      ≠ [ { role := "user", parts := [mkTextPart "snapshot"] },
          { role := "model",
            parts := [mkTextPart "Got it. Thanks for the additional context!"] } ] := by
  refine ⟨rfl, rfl, by decide⟩

/-- Claim C5 (amended): `tryCompressChat(force=false)` returns `null` and
leaves history unchanged when the curated history is empty; when the
curated history is non-empty and its token count reaches 0.7 of the model
token limit it sends the summarization request exactly once, replaces the
conversation history with the environment-context preamble pair followed by
the 2-message pair `[snapshot-as-user, ack-as-model]` (which is the extra
history handed to `startChat`), and returns the before/after token counts
(emitted as the `ChatCompressed` event) whenever the new token count is
computable. -/
theorem tryCompressChat_spec (deps : CompressDeps) (history : List Content) :
    (deps.curate history = [] →
      ∀ force, tryCompressChat deps force history = (none, history, 0))
    ∧ (deps.curate history ≠ [] →
       7 * deps.modelTokenLimit
          ≤ 10 * ((deps.countTokens (deps.curate history)).getD 0) →
      (tryCompressChat deps false history).2.2 = 1
      ∧ (tryCompressChat deps false history).2.1
          = startChatHistory deps.envParts
              [ { role := "user", parts := [mkTextPart deps.summaryText] },
                { role := "model",
                  parts := [mkTextPart "Got it. Thanks for the additional context!"] } ]
      ∧ (∀ nc, deps.countTokens ((tryCompressChat deps false history).2.1) = some nc →
          (tryCompressChat deps false history).1
            = some ((deps.countTokens (deps.curate history)).getD 0, nc))
      ∧ (deps.countTokens ((tryCompressChat deps false history).2.1) = none →
          (tryCompressChat deps false history).1 = none)) := by
  constructor
  · intro hempty force
    unfold tryCompressChat
    rw [if_pos (by simp [hempty])]
  · intro hne hthr
    have hnotlt : ¬(10 * ((deps.countTokens (deps.curate history)).getD 0)
        < 7 * deps.modelTokenLimit) := by omega
    have hunf : tryCompressChat deps false history
        = match deps.countTokens (startChatHistory deps.envParts
            [ { role := "user", parts := [mkTextPart deps.summaryText] },
              { role := "model",
                parts := [mkTextPart "Got it. Thanks for the additional context!"] } ]) with
          | none => (none, startChatHistory deps.envParts
              [ { role := "user", parts := [mkTextPart deps.summaryText] },
                { role := "model",
                  parts := [mkTextPart "Got it. Thanks for the additional context!"] } ], 1)
          | some newTokenCount =>
              (some ((deps.countTokens (deps.curate history)).getD 0, newTokenCount),
                startChatHistory deps.envParts
                  [ { role := "user", parts := [mkTextPart deps.summaryText] },
                    { role := "model",
                      parts := [mkTextPart "Got it. Thanks for the additional context!"] } ], 1) := by
      unfold tryCompressChat
      rw [if_neg (by simpa using hne), if_neg (by simp [hnotlt])]
    cases hc : deps.countTokens (startChatHistory deps.envParts
        [ { role := "user", parts := [mkTextPart deps.summaryText] },
          { role := "model",
            parts := [mkTextPart "Got it. Thanks for the additional context!"] } ]) with
    | none =>
      rw [hunf, hc]
      refine ⟨rfl, rfl, ?_, ?_⟩
      · intro nc hnc
        rw [hc] at hnc
        exact absurd hnc (by simp)
      · intro _
        rfl
    | some nc0 =>
      rw [hunf, hc]
      refine ⟨rfl, rfl, ?_, ?_⟩
      · intro nc hnc
        rw [hc] at hnc
        simp only [Option.some_inj] at hnc
        rw [hnc]
      · intro hnone
        rw [hc] at hnone
        exact absurd hnone (by simp)

/-- Witness for the amended C5 at the counterexample's concrete input. -/
theorem tryCompressChat_spec_witness :
    (tryCompressChat
        { curate := fun h => h
          countTokens := fun h => if h.length = 1 then some 8000 else some 3000
          modelTokenLimit := 10000
          summaryText := "snapshot"
          envParts := [mkTextPart "env"] }
        false
        [{ role := "user", parts := [mkTextPart "hi"] }]).2.2 = 1 := by
  exact ((tryCompressChat_spec
    { curate := fun h => h
      countTokens := fun h => if h.length = 1 then some 8000 else some 3000
      modelTokenLimit := 10000
      summaryText := "snapshot"
      envParts := [mkTextPart "env"] }
    [{ role := "user", parts := [mkTextPart "hi"] }]).2
    (by simp) (by norm_num)).1

/-- `MAX_TURNS` from `client.js`. -/
def MAX_TURNS : Nat := 100

/-- The per-turn outcomes `sendMessageStream` consults, indexed by turn
depth: whether the turn ends with pending tool calls, whether the shared
token is aborted, and whether the next-speaker check says the model should
continue (a failed or ambiguous check counts as `false`). -/
structure TurnLoopOracle where
  pendingToolCalls : Nat → Bool
  aborted : Nat → Bool
  nextSpeakerIsModel : Nat → Bool

/-- The turn-counting skeleton of `sendMessageStream` (`client.js` lines
162–187): `boundedTurns = min(turns, MAX_TURNS)`; a zero budget returns at
once (no turn, no error); otherwise one turn runs, and the loop recurses
with `boundedTurns - 1` exactly when the turn left no pending tool calls,
the token is not aborted, and next-speaker inference says `model`.  The
value is the number of model turns performed; the function is total, so
exceeding the budget stops silently rather than raising. -/
def turnsRun (o : TurnLoopOracle) (depth turns : Nat) : Nat :=
  let boundedTurns := min turns MAX_TURNS
  if h : boundedTurns = 0 then 0
  else
    1 + (if !o.pendingToolCalls depth && !o.aborted depth
            && o.nextSpeakerIsModel depth then
          turnsRun o (depth + 1) (boundedTurns - 1)
        else 0)
termination_by turns
decreasing_by
  exact lt_of_lt_of_le (Nat.sub_lt (Nat.pos_of_ne_zero h) one_pos)
    (min_le_left _ _)

lemma turnsRun_le (o : TurnLoopOracle) :
    ∀ turns depth, turnsRun o depth turns ≤ min turns MAX_TURNS := by
  intro turns
  induction turns using Nat.strong_induction_on with
  | _ turns ih =>
    intro depth
    unfold turnsRun
    by_cases h : min turns MAX_TURNS = 0
    · rw [dif_pos h, h]
    · rw [dif_neg h]
      have h1 : min turns MAX_TURNS ≤ turns := min_le_left _ _
      have h2 : min turns MAX_TURNS ≤ MAX_TURNS := min_le_right _ _
      have hpos : 0 < min turns MAX_TURNS := Nat.pos_of_ne_zero h
      split
      · have hlt : min turns MAX_TURNS - 1 < turns :=
          lt_of_lt_of_le (Nat.sub_lt hpos one_pos) h1
        have hrec := ih _ hlt (depth + 1)
        have hmin : min (min turns MAX_TURNS - 1) MAX_TURNS
            = min turns MAX_TURNS - 1 :=
          min_eq_left (le_trans (Nat.sub_le _ _) h2)
        rw [hmin] at hrec
        omega
      · omega

/-- Claim C6: `sendMessageStream` performs at most `min(turns, MAX_TURNS)`
model turns; a zero budget returns immediately; on each continuation the
remaining budget passed down is `min(turns, MAX_TURNS) - 1`; and with
`maxTurns = 1` and a model that always requests another tool call the loop
terminates after exactly one turn (the function is total — exhaustion never
raises). -/
theorem sendMessageStream_turn_budget (o : TurnLoopOracle) (depth turns : Nat) :
    turnsRun o depth turns ≤ min turns MAX_TURNS
    ∧ turnsRun o depth 0 = 0
    ∧ (0 < min turns MAX_TURNS →
        turnsRun o depth turns
          = 1 + (if !o.pendingToolCalls depth && !o.aborted depth
                    && o.nextSpeakerIsModel depth then
                turnsRun o (depth + 1) (min turns MAX_TURNS - 1)
              else 0))
    ∧ (o.pendingToolCalls depth = true → turnsRun o depth 1 = 1) := by
  refine ⟨turnsRun_le o turns depth, by unfold turnsRun; simp, ?_, ?_⟩
  · intro hpos
    conv_lhs => rw [turnsRun]
    rw [dif_neg (Nat.pos_iff_ne_zero.mp hpos)]
  · intro hp
    conv_lhs => rw [turnsRun]
    simp [MAX_TURNS, hp]

/-- Witness for C6: with a model that always requests another tool call,
a budget of one yields exactly one turn. -/
theorem sendMessageStream_turn_budget_witness :
    turnsRun ⟨fun _ => true, fun _ => false, fun _ => true⟩ 0 1 = 1 := by
  exact (sendMessageStream_turn_budget
    ⟨fun _ => true, fun _ => false, fun _ => true⟩ 0 1).2.2.2 rfl

/-! ## Turn Engine (`Turn.run` in `turn.js`)

`Turn.run` is an async generator over the model stream; it is embedded as a
function from the list of raw chunks to the list of yielded events.  The
shared cancellation token is a function of the chunk index: `abortedAt i`
is the token's state when the `i`-th chunk is about to be processed (the
`if (signal?.aborted)` check at the top of the loop body).  Generated call
ids (`name-Date.now()-random`) are abstracted by a `fresh` function. -/

/-- The fields of one raw stream chunk that `Turn.run` reads: the first
part's thought flag with its raw text (`thoughtPart.text ?? ''` already
applied), the chunk's extracted text (`getResponseText(resp)`), and its
function calls. -/
structure StreamChunk where
  thoughtText : Option String
  responseText : Option String
  functionCalls : List (Option String × Option String)
deriving DecidableEq, Repr

/-- Events yielded by `Turn.run` (the error event is produced only by the
catch handler around the stream, which the chunk loop never reaches). -/
inductive TurnEvent where
  | thought (subject description : String)
  | content (text : String)
  | toolCallRequest (callId name : String)
  | userCancelled
deriving DecidableEq, Repr

/-- The thought-part split (`turn.js` lines 146–151): the first
`**`-delimited span is the subject, and the description is the raw text
with that first span removed, both trimmed; without a complete span the
subject is empty and the description is the whole text. -/
def parseThought (raw : String) : String × String :=
  match raw.splitOn "**" with
  | before :: subject :: r :: rest =>
      (subject.trim, (before ++ String.intercalate "**" (r :: rest)).trim)
  | _ => ("", raw.trim)

/-- `handlePendingFunctionCall`: `callId = fnCall.id ?? generated`,
`name = fnCall.name || 'undefined_tool_name'` (JS `||`: the empty string is
falsy), yielding a tool-call-request event. -/
def handlePendingFunctionCall (fresh : Option String → String)
    (fc : Option String × Option String) : TurnEvent :=
  let callId := match fc.1 with
    | some i => i
    | none => fresh fc.2
  let name := jsOrString fc.2 "undefined_tool_name"
  .toolCallRequest callId name

/-- The events one processed chunk yields, in source order: a thought part
short-circuits the chunk (`continue`); otherwise a non-empty text yields a
content event (`if (text)`) and then each function call yields a request
event. -/
def chunkEvents (fresh : Option String → String) (c : StreamChunk) :
    List TurnEvent :=
  match c.thoughtText with
  | some raw => [.thought (parseThought raw).1 (parseThought raw).2]
  | none =>
      (match c.responseText with
       | some t => if t = "" then [] else [.content t]
       | none => [])
      ++ c.functionCalls.map (handlePendingFunctionCall fresh)

/-- The chunk loop of `Turn.run` (`turn.js` lines 135–174): before
processing each chunk the token is checked; once it is observed the loop
yields a single `UserCancelled` and returns, discarding the chunk at hand
and the rest of the stream. -/
def runEvents (fresh : Option String → String) (abortedAt : Nat → Bool) :
    Nat → List StreamChunk → List TurnEvent
  | _, [] => []
  | i, c :: rest =>
      if abortedAt i then [.userCancelled]
      else chunkEvents fresh c ++ runEvents fresh abortedAt (i + 1) rest

lemma userCancelled_not_mem_chunkEvents (fresh : Option String → String)
    (c : StreamChunk) : TurnEvent.userCancelled ∉ chunkEvents fresh c := by
  unfold chunkEvents
  cases c.thoughtText with
  | some raw => simp
  | none =>
    intro hmem
    rcases List.mem_append.mp hmem with h | h
    · cases ht : c.responseText with
      | some t =>
        rw [ht] at h
        by_cases he : t = ""
        · simp [he] at h
        · simp [he] at h
      | none => simp [ht] at h
    · obtain ⟨fc, -, hfc⟩ := List.mem_map.mp h
      unfold handlePendingFunctionCall at hfc
      simp at hfc

lemma runEvents_no_abort (fresh : Option String → String)
    (abortedAt : Nat → Bool) :
    ∀ (chunks : List StreamChunk) (i0 : Nat),
    (∀ j, j < chunks.length → abortedAt (i0 + j) = false) →
    runEvents fresh abortedAt i0 chunks
      = (chunks.map (chunkEvents fresh)).flatten := by
  intro chunks
  induction chunks with
  | nil =>
    intro i0 _
    rfl
  | cons c rest ih =>
    intro i0 hno
    unfold runEvents
    have h0 : abortedAt i0 = false := by
      have := hno 0 (by simp)
      simpa using this
    rw [if_neg (by simp [h0])]
    rw [ih (i0 + 1) (fun j hj => by
      have := hno (j + 1) (by simp; omega)
      rw [show i0 + 1 + j = i0 + (j + 1) from by omega]
      exact this)]
    simp

lemma runEvents_abort_at (fresh : Option String → String)
    (abortedAt : Nat → Bool) :
    ∀ (k : Nat) (chunks : List StreamChunk) (i0 : Nat),
    k < chunks.length →
    (∀ j, j < k → abortedAt (i0 + j) = false) →
    abortedAt (i0 + k) = true →
    runEvents fresh abortedAt i0 chunks
      = ((chunks.take k).map (chunkEvents fresh)).flatten
          ++ [TurnEvent.userCancelled] := by
  intro k
  induction k with
  | zero =>
    intro chunks i0 hk _ habort
    cases chunks with
    | nil => simp at hk
    | cons c rest =>
      unfold runEvents
      rw [if_pos (by simpa using habort)]
      simp
  | succ k ih =>
    intro chunks i0 hk hno habort
    cases chunks with
    | nil => simp at hk
    | cons c rest =>
      unfold runEvents
      have h0 : abortedAt i0 = false := by
        have := hno 0 (by omega)
        simpa using this
      rw [if_neg (by simp [h0])]
      rw [ih rest (i0 + 1) (by simpa using hk)
        (fun j hj => by
          have := hno (j + 1) (by omega)
          rw [show i0 + 1 + j = i0 + (j + 1) from by omega]
          exact this)
        (by
          rw [show i0 + 1 + k = i0 + (k + 1) from by omega]
          exact habort)]
      simp

/-- Claim C9: `Turn.run` checks the token before processing each chunk; with
no cancellation the whole stream's events are yielded and no `UserCancelled`
appears; once cancellation is first observed at chunk `k`, exactly the
events of the chunks before `k` are yielded followed by a single
`UserCancelled`, and the chunk at hand — already received, not yet
processed — contributes no event. -/
theorem turn_run_cancellation (fresh : Option String → String)
    (abortedAt : Nat → Bool) (chunks : List StreamChunk) (k : Nat) :
    ((∀ j, j < chunks.length → abortedAt j = false) →
      runEvents fresh abortedAt 0 chunks
        = (chunks.map (chunkEvents fresh)).flatten
      ∧ TurnEvent.userCancelled ∉ runEvents fresh abortedAt 0 chunks)
    ∧ (k < chunks.length →
       (∀ j, j < k → abortedAt j = false) →
       abortedAt k = true →
      runEvents fresh abortedAt 0 chunks
        = ((chunks.take k).map (chunkEvents fresh)).flatten
            ++ [TurnEvent.userCancelled]
      ∧ (runEvents fresh abortedAt 0 chunks).count TurnEvent.userCancelled = 1) := by
  constructor
  · intro hno
    have he := runEvents_no_abort fresh abortedAt chunks 0
      (fun j hj => by simpa using hno j hj)
    refine ⟨he, ?_⟩
    rw [he]
    intro hmem
    rw [List.mem_flatten] at hmem
    obtain ⟨l, hl, hmeml⟩ := hmem
    obtain ⟨c, -, rfl⟩ := List.mem_map.mp hl
    exact userCancelled_not_mem_chunkEvents fresh c hmeml
  · intro hk hno habort
    have he := runEvents_abort_at fresh abortedAt k chunks 0 hk
      (fun j hj => by simpa using hno j hj) (by simpa using habort)
    refine ⟨he, ?_⟩
    rw [he, List.count_append]
    have hzero : (((chunks.take k).map (chunkEvents fresh)).flatten).count
        TurnEvent.userCancelled = 0 := by
      rw [List.count_eq_zero]
      intro hmem
      rw [List.mem_flatten] at hmem
      obtain ⟨l, hl, hmeml⟩ := hmem
      obtain ⟨c, -, rfl⟩ := List.mem_map.mp hl
      exact userCancelled_not_mem_chunkEvents fresh c hmeml
    rw [hzero]
    rfl

/-- Witness for C9: cancellation observed before the second chunk yields the
first chunk's content event and a single `UserCancelled`; the second chunk
is discarded. -/
theorem turn_run_cancellation_witness :
    runEvents (fun _ => "gen") (fun i => decide (1 ≤ i)) 0
        [⟨none, some "hello", []⟩, ⟨none, some "dropped", [(some "c9", some "t")]⟩]
      = [TurnEvent.content "hello", TurnEvent.userCancelled] := by
  have h := ((turn_run_cancellation (fun _ => "gen") (fun i => decide (1 ≤ i))
    [⟨none, some "hello", []⟩, ⟨none, some "dropped", [(some "c9", some "t")]⟩] 1).2
    (by decide) (by decide) (by decide)).1
  exact h.trans (by decide)

end Engine
